import Mathlib

/-!
Verification development for the resume-matcher service (`src/main.py`).

The file embeds the two core components of the repository — the text
extractor `extract_text_from_file` together with `convert_to_single_string`,
and the JSON recovery routine `clean_json_string` with its helper
`convert_to_snake_case` — as executable Lean definitions, and proves the
specification's testable properties about them.

External libraries used by the code (`json.loads`, `ast.literal_eval`,
PyPDF2, python-docx, UTF-8 decoding) are modelled as Lean functions or as
oracle fields of an input structure; each model's doc comment states its
scope.  Python `dict`s are modelled as ordered association lists with the
CPython insertion semantics (first-occurrence position, last value wins).
-/

/-- The six ASCII characters Python's `str.strip`, `str.split` and the regex
class `\s` treat as whitespace: space, tab, newline, carriage return,
vertical tab, form feed.  (Python also strips some further Unicode
whitespace; the model covers the ASCII range, which is all the theorems
below exercise.) -/
def isPyWs (c : Char) : Bool :=
  c = ' ' || c = '\t' || c = '\n' || c = '\r' || c = '\x0b' || c = '\x0c'

/-- Python `str.strip()` on the character list (both ends). -/
def pyStripChars (cs : List Char) : List Char :=
  ((cs.dropWhile isPyWs).reverse.dropWhile isPyWs).reverse

/-- Python `str.strip()`. -/
def pyStrip (s : String) : String :=
  String.mk (pyStripChars s.toList)

/-- The regex class `[A-Z]` of `convert_to_snake_case`'s
`re.sub(r'(?<!^)(?=[A-Z])', '_', k)`. -/
def upperAZ (c : Char) : Bool :=
  65 ≤ c.toNat && c.toNat ≤ 90

/-- One character of Python `str.lower()` (ASCII range; the keys the
theorems exercise are ASCII). -/
def pyLowerChar (c : Char) : Char :=
  if upperAZ c then Char.ofNat (c.toNat + 32) else c

/-- JSON-like Python values: the results of `json.loads` / `ast.literal_eval`
that `convert_to_snake_case` walks.  Dictionaries are ordered association
lists (CPython insertion order); numbers are integers or a raw float
lexeme (no theorem below compares float values). -/
inductive Json where
  | null
  | bool (b : Bool)
  | num (n : Int)
  | float (lexeme : String)
  | str (s : String)
  | arr (elems : List Json)
  | obj (members : List (String × Json))

/-- One CPython `dict` insertion `d[k] = v` on an ordered association list:
an existing key keeps its position and gets the new value, a new key is
appended. -/
def insertKey (acc : List (String × Json)) (k : String) (v : Json) :
    List (String × Json) :=
  match acc with
  | [] => [(k, v)]
  | (k', v') :: rest =>
    if k' = k then (k', v) :: rest else (k', v') :: insertKey rest k v

/-- Building a CPython `dict` from a sequence of key/value pairs (as a dict
comprehension does), left to right. -/
def pyDictAux (acc : List (String × Json)) :
    List (String × Json) → List (String × Json)
  | [] => acc
  | (k, v) :: rest => pyDictAux (insertKey acc k v) rest

/-- The CPython `dict` built from a pair sequence. -/
def pyDict (l : List (String × Json)) : List (String × Json) :=
  pyDictAux [] l

/-- The characters `re.sub(r'(?<!^)(?=[A-Z])', '_', k)` produces after the
first character: an underscore is inserted before every `[A-Z]` character. -/
def snakeTail : List Char → List Char
  | [] => []
  | c :: cs => (if upperAZ c then ['_', c] else [c]) ++ snakeTail cs

/-- `re.sub(r'(?<!^)(?=[A-Z])', '_', k)`: the lookbehind `(?<!^)` exempts
the first character from the insertion. -/
def snakeChars : List Char → List Char
  | [] => []
  | c :: cs => c :: snakeTail cs

/-- The key transformation of `convert_to_snake_case`
(src/main.py line 76): `re.sub(r'(?<!^)(?=[A-Z])', '_', k).lower()`. -/
def snakeCaseKey (k : String) : String :=
  String.mk ((snakeChars k.toList).map pyLowerChar)

mutual

/-- `convert_to_snake_case` (src/main.py lines 72-81): recursively rewrite
every dict key to snake_case; lists are walked element-wise; anything else
passes through unchanged.  The dict comprehension is modelled by `pyDict`
over the transformed pairs. -/
def convert_to_snake_case : Json → Json
  | .obj kvs => .obj (pyDict (convertPairs kvs))
  | .arr xs => .arr (convertList xs)
  | .null => .null
  | .bool b => .bool b
  | .num n => .num n
  | .float l => .float l
  | .str s => .str s

/-- The element-wise walk of `convert_to_snake_case` over a list. -/
def convertList : List Json → List Json
  | [] => []
  | x :: xs => convert_to_snake_case x :: convertList xs

/-- The pair sequence `(re.sub(...) k .lower(), convert_to_snake_case v)`
the dict comprehension of `convert_to_snake_case` iterates over. -/
def convertPairs : List (String × Json) → List (String × Json)
  | [] => []
  | (k, v) :: kvs => (snakeCaseKey k, convert_to_snake_case v) :: convertPairs kvs

end

/-! ### De-fencing (src/main.py lines 83-85) -/

/-- Does the character list start with three backticks? -/
def startsTicks : List Char → Bool
  | '`' :: '`' :: '`' :: _ => true
  | _ => false

/-- Does the character list end with three backticks? -/
def endsTicks (cs : List Char) : Bool :=
  startsTicks cs.reverse

/-- Drop characters up to and including the first newline; `none` if there
is no newline. -/
def dropThroughNl : List Char → Option (List Char)
  | [] => none
  | c :: rest => if c = '\n' then some rest else dropThroughNl rest

/-- The alternative `^` three backticks `.*?\n` of
`re.sub(r"^...|...$", "", t, flags=re.S)`: anchored at the start, it
removes the opening fence up to and including the first newline; with no
newline after the fence it does not match. -/
def stripFenceHead (cs : List Char) : List Char :=
  match cs with
  | '`' :: '`' :: '`' :: rest =>
    match dropThroughNl rest with
    | some r => r
    | none => cs
  | _ => cs

/-- The alternative three backticks `$` of the same `re.sub`: the stripped
string has no trailing newline, so `$` is the end of the string and the
match, when present, is exactly the last three characters. -/
def stripFenceTail (cs : List Char) : List Char :=
  if endsTicks cs then (cs.reverse.drop 3).reverse else cs

/-- Lines 83-85 of src/main.py: if the stripped input starts and ends with
three backticks, `json_string` is reassigned to the `re.sub` of the
stripped input; otherwise it is left unchanged (in particular it is NOT
stripped). -/
def defenceStep (s : String) : String :=
  if startsTicks (pyStripChars s.toList) && endsTicks (pyStripChars s.toList) then
    String.mk (stripFenceTail (stripFenceHead (pyStripChars s.toList)))
  else s

/-! ### The string surgeries of strategies (b)-(d) -/

/-- `re.sub(r'\\n\s*', '', s)` (strategy (b)): remove every literal
backslash-n together with the whitespace run following it.  Regex scanning
is left to right and non-overlapping; the fuel is the input length, and
every recursive call consumes at least one character per unit of fuel. -/
def removeEscNlChars : Nat → List Char → List Char
  | 0, cs => cs
  | _ + 1, [] => []
  | fuel + 1, '\\' :: rest =>
    match rest with
    | 'n' :: rest2 => removeEscNlChars fuel (rest2.dropWhile isPyWs)
    | _ => '\\' :: removeEscNlChars fuel rest
  | fuel + 1, c :: rest => c :: removeEscNlChars fuel rest

/-- Strategy (b)'s transformed string. -/
def removeEscapedNewlines (s : String) : String :=
  String.mk (removeEscNlChars s.toList.length s.toList)

/-- Python `s.replace('\\"', '"')`: left-to-right, non-overlapping. -/
def replaceEscQuote : List Char → List Char
  | '\\' :: '"' :: rest => '"' :: replaceEscQuote rest
  | c :: rest => c :: replaceEscQuote rest
  | [] => []

/-- Python `s.replace('\\n', ' ')`. -/
def replaceEscNlSpace : List Char → List Char
  | '\\' :: 'n' :: rest => ' ' :: replaceEscNlSpace rest
  | c :: rest => c :: replaceEscNlSpace rest
  | [] => []

/-- Strategy (c)'s transformed string:
`s.replace('\\"', '"').replace('\\n', ' ')`. -/
def replaceEscapes (s : String) : String :=
  String.mk (replaceEscNlSpace (replaceEscQuote s.toList))

/-- `re.sub(r'\\["\'ntr]', ' ', s)` (strategy (d)): a backslash followed by
one of `"`, `'`, `n`, `t`, `r` becomes a single space; at a backslash not
followed by one of those, scanning advances one character. -/
def aggressiveChars : List Char → List Char
  | '\\' :: c :: rest =>
    if c = '"' || c = '\'' || c = 'n' || c = 't' || c = 'r' then
      ' ' :: aggressiveChars rest
    else
      '\\' :: aggressiveChars (c :: rest)
  | c :: rest => c :: aggressiveChars rest
  | [] => []

/-- Strategy (d)'s transformed string. -/
def aggressiveClean (s : String) : String :=
  String.mk (aggressiveChars s.toList)

/-! ### Model of CPython `json.loads`

`json.loads` is an external collaborator (the Python standard library).
The model below implements the strict JSON grammar CPython's decoder
accepts: objects, arrays, double-quoted strings with the standard escape
set, numbers per the decoder's `NUMBER_RE`, the literals `true`, `false`,
`null`, and (as CPython does by default) `NaN`, `Infinity`, `-Infinity`.
Duplicate object keys follow dict semantics (`pyDict`).  Two deliberate
simplifications, neither load-bearing for any theorem below: `\uXXXX`
escapes are turned into the scalar value without surrogate-pair
combination, and non-integral numbers keep their lexeme instead of a float
value. -/

/-- Whitespace skipped by the JSON decoder: space, tab, newline, carriage
return. -/
def jsonWsChar (c : Char) : Bool :=
  c = ' ' || c = '\t' || c = '\n' || c = '\r'

/-- Skip JSON whitespace. -/
def skipJsonWs (cs : List Char) : List Char :=
  cs.dropWhile jsonWsChar

/-- Hexadecimal digit value. -/
def hexVal (c : Char) : Option Nat :=
  if '0' ≤ c && c ≤ '9' then some (c.toNat - 48)
  else if 'a' ≤ c && c ≤ 'f' then some (c.toNat - 87)
  else if 'A' ≤ c && c ≤ 'F' then some (c.toNat - 55)
  else none

/-- Decimal digit run to a natural number. -/
def digitsToNat (ds : List Char) : Nat :=
  ds.foldl (fun a c => a * 10 + (c.toNat - 48)) 0

/-- Body of a JSON string after the opening quote; returns the decoded
characters and the remainder after the closing quote.  Control characters
below 0x20 are rejected (strict mode), the escape set is
`\" \\ \/ \b \f \n \r \t \uXXXX`. -/
def parseJsonStringBody : Nat → List Char → Option (List Char × List Char)
  | 0, _ => none
  | _ + 1, [] => none
  | fuel + 1, c :: rest =>
    if c = '"' then some ([], rest)
    else if c = '\\' then
      match rest with
      | [] => none
      | e :: rest2 =>
        let esc : Option (List Char × List Char) :=
          if e = '"' then some (['"'], rest2)
          else if e = '\\' then some (['\\'], rest2)
          else if e = '/' then some (['/'], rest2)
          else if e = 'b' then some (['\x08'], rest2)
          else if e = 'f' then some (['\x0c'], rest2)
          else if e = 'n' then some (['\n'], rest2)
          else if e = 'r' then some (['\r'], rest2)
          else if e = 't' then some (['\t'], rest2)
          else if e = 'u' then
            match rest2 with
            | h1 :: h2 :: h3 :: h4 :: rest3 =>
              match hexVal h1, hexVal h2, hexVal h3, hexVal h4 with
              | some a, some b, some c2, some d =>
                some ([Char.ofNat (((a * 16 + b) * 16 + c2) * 16 + d)], rest3)
              | _, _, _, _ => none
            | _ => none
          else none
        match esc with
        | some (out, r) =>
          match parseJsonStringBody fuel r with
          | some (tl, rr) => some (out ++ tl, rr)
          | none => none
        | none => none
    else if c.toNat < 32 then none
    else
      match parseJsonStringBody fuel rest with
      | some (tl, rr) => some (c :: tl, rr)
      | none => none

/-- A JSON number per the decoder's regex
`(-?(?:0|[1-9]\d*))(\.\d+)?([eE][-+]?\d+)?`: integral results become
`Json.num`, anything with a fraction or exponent keeps its lexeme as
`Json.float`. -/
def parseJsonNumber (cs : List Char) : Option (Json × List Char) :=
  let signed : Bool × List Char :=
    match cs with
    | '-' :: r => (true, r)
    | _ => (false, cs)
  match signed with
  | (neg, cs1) =>
    match cs1 with
    | [] => none
    | c :: cs2 =>
      if !c.isDigit then none
      else
        let intPart : List Char × List Char :=
          if c = '0' then (['0'], cs2)
          else (c :: cs2.takeWhile Char.isDigit, cs2.dropWhile Char.isDigit)
        match intPart with
        | (intDigits, rest1) =>
          let fracPart : List Char × List Char :=
            match rest1 with
            | '.' :: d :: _ =>
              if d.isDigit then
                ('.' :: (rest1.tail.takeWhile Char.isDigit),
                  rest1.tail.dropWhile Char.isDigit)
              else ([], rest1)
            | _ => ([], rest1)
          match fracPart with
          | (fracDigits, rest2) =>
            let expPart : List Char × List Char :=
              match rest2 with
              | e :: r3 =>
                if e = 'e' || e = 'E' then
                  match r3 with
                  | s :: d :: _ =>
                    if (s = '+' || s = '-') && d.isDigit then
                      (e :: s :: (r3.tail.takeWhile Char.isDigit),
                        r3.tail.dropWhile Char.isDigit)
                    else if s.isDigit then
                      (e :: (r3.takeWhile Char.isDigit),
                        r3.dropWhile Char.isDigit)
                    else ([], rest2)
                  | [s] =>
                    if s.isDigit then ([e, s], []) else ([], rest2)
                  | [] => ([], rest2)
                else ([], rest2)
              | [] => ([], rest2)
            match expPart with
            | (expDigits, rest3) =>
              if fracDigits.isEmpty && expDigits.isEmpty then
                let n : Int := Int.ofNat (digitsToNat intDigits)
                some (.num (if neg then -n else n), rest3)
              else
                let lexeme := (if neg then ['-'] else []) ++ intDigits
                  ++ fracDigits ++ expDigits
                some (.float (String.mk lexeme), rest3)

mutual

/-- One JSON value (leading whitespace skipped), returning the remainder. -/
def parseJsonValue : Nat → List Char → Option (Json × List Char)
  | 0, _ => none
  | fuel + 1, cs0 =>
    let cs := skipJsonWs cs0
    match cs with
    | '{' :: rest =>
      match skipJsonWs rest with
      | '}' :: r2 => some (.obj [], r2)
      | _ => parseJsonObjRest fuel rest []
    | '[' :: rest =>
      match skipJsonWs rest with
      | ']' :: r2 => some (.arr [], r2)
      | _ => parseJsonElems fuel rest []
    | '"' :: rest =>
      match parseJsonStringBody (rest.length + 1) rest with
      | some (body, r) => some (.str (String.mk body), r)
      | none => none
    | 't' :: 'r' :: 'u' :: 'e' :: r => some (.bool true, r)
    | 'f' :: 'a' :: 'l' :: 's' :: 'e' :: r => some (.bool false, r)
    | 'n' :: 'u' :: 'l' :: 'l' :: r => some (.null, r)
    | 'N' :: 'a' :: 'N' :: r => some (.float "NaN", r)
    | 'I' :: 'n' :: 'f' :: 'i' :: 'n' :: 'i' :: 't' :: 'y' :: r =>
      some (.float "Infinity", r)
    | '-' :: 'I' :: 'n' :: 'f' :: 'i' :: 'n' :: 'i' :: 't' :: 'y' :: r =>
      some (.float "-Infinity", r)
    | _ => parseJsonNumber cs

/-- Members of a JSON object after at least one member is required:
`"key" : value`, then `,` for more members or `}` to close. -/
def parseJsonObjRest : Nat → List Char → List (String × Json) →
    Option (Json × List Char)
  | 0, _, _ => none
  | fuel + 1, cs0, acc =>
    match skipJsonWs cs0 with
    | '"' :: rest =>
      match parseJsonStringBody (rest.length + 1) rest with
      | some (keyChars, r1) =>
        match skipJsonWs r1 with
        | ':' :: r3 =>
          match parseJsonValue fuel r3 with
          | some (v, r4) =>
            let acc2 := acc ++ [(String.mk keyChars, v)]
            match skipJsonWs r4 with
            | ',' :: r6 => parseJsonObjRest fuel r6 acc2
            | '}' :: r6 => some (.obj (pyDict acc2), r6)
            | _ => none
          | none => none
        | _ => none
      | none => none
    | _ => none

/-- Elements of a JSON array after at least one element is required. -/
def parseJsonElems : Nat → List Char → List Json → Option (Json × List Char)
  | 0, _, _ => none
  | fuel + 1, cs0, acc =>
    match parseJsonValue fuel cs0 with
    | some (v, r1) =>
      match skipJsonWs r1 with
      | ',' :: r3 => parseJsonElems fuel r3 (acc ++ [v])
      | ']' :: r3 => some (.arr (acc ++ [v]), r3)
      | _ => none
    | none => none

end

/-- Model of CPython `json.loads`: skip leading whitespace, parse one
value, skip trailing whitespace, require the end of the input. -/
def json_loads (s : String) : Option Json :=
  match parseJsonValue (s.length + 1) s.toList with
  | some (j, rest) => if (skipJsonWs rest).isEmpty then some j else none
  | none => none

/-! ### Model of CPython `ast.literal_eval`

`ast.literal_eval` is an external collaborator.  CPython first parses the
input as a Python expression (`SyntaxError` on failure) and then converts
the tree, raising `ValueError` on any node that is not a literal — the
distinction matters because src/main.py line 106 catches `SyntaxError` but
not `ValueError`.  The partial model below follows CPython exactly on the
inputs the theorems exercise: quoted strings, integers with an optional
sign, lists, dicts with string-literal keys, the constants
`True`/`False`/`None`, bare identifiers and keywords, inputs beginning
with a character that cannot start a Python expression (such as `@`), and
inputs with leading whitespace (a syntax error in eval mode).  Tuples,
sets, floats, complex numbers, and compound expressions such as `not x`
or `1+2j` are not modelled and classify as a syntax error; no theorem
below depends on them. -/

/-- Outcome of `ast.literal_eval`: a value, a `SyntaxError` (caught at
src/main.py line 106), or a `ValueError` (not caught). -/
inductive LitResult where
  | ok (j : Json)
  | syntaxError
  | valueError

/-- First character of a Python identifier (ASCII). -/
def pyIdentStart (c : Char) : Bool :=
  c.isAlpha || c = '_'

/-- Continuation character of a Python identifier (ASCII). -/
def pyIdentCont (c : Char) : Bool :=
  c.isAlphanum || c = '_'

/-- Python keywords: a bare keyword is not a `Name` node, so it parses
differently from an identifier (alone, it is a syntax error). -/
def pyKeywords : List String :=
  ["and", "as", "assert", "async", "await", "break", "class", "continue",
   "def", "del", "elif", "else", "except", "finally", "for", "from",
   "global", "if", "in", "is", "lambda", "nonlocal", "not", "or",
   "pass", "raise", "return", "try", "while", "with", "yield"]

/-- Body of a Python string literal after the opening quote `q`.  The
other quote kind may appear freely; a raw newline ends the line and is a
syntax error; recognized escapes are `\\ \' \" \n \t \r`, and an
unrecognized escape keeps the backslash (CPython behaviour). -/
def parsePyStringBody (q : Char) : Nat → List Char → Option (List Char × List Char)
  | 0, _ => none
  | _ + 1, [] => none
  | fuel + 1, c :: rest =>
    if c = q then some ([], rest)
    else if c = '\n' then none
    else if c = '\\' then
      match rest with
      | [] => none
      | e :: rest2 =>
        let decoded : List Char :=
          if e = '\\' then ['\\']
          else if e = '\'' then ['\'']
          else if e = '"' then ['"']
          else if e = 'n' then ['\n']
          else if e = 't' then ['\t']
          else if e = 'r' then ['\r']
          else ['\\', e]
        match parsePyStringBody q fuel rest2 with
        | some (tl, rr) => some (decoded ++ tl, rr)
        | none => none
    else
      match parsePyStringBody q fuel rest with
      | some (tl, rr) => some (c :: tl, rr)
      | none => none

/-- A signed Python integer literal (sign already consumed). -/
def parseLitInt (neg : Bool) (cs : List Char) : Option (Json × List Char) :=
  match cs with
  | [] => none
  | c :: _ =>
    if !c.isDigit then none
    else
      let digits := cs.takeWhile Char.isDigit
      let rest := cs.dropWhile Char.isDigit
      match rest with
      | '.' :: _ => none
      | 'e' :: _ => none
      | 'E' :: _ => none
      | 'j' :: _ => none
      | 'J' :: _ => none
      | _ =>
        let n : Int := Int.ofNat (digitsToNat digits)
        some (.num (if neg then -n else n), rest)

mutual

/-- One literal expression of the modelled subset, leading whitespace
skipped (whitespace and newlines are insignificant inside brackets). -/
def parseLit : Nat → List Char → Option (Json × List Char)
  | 0, _ => none
  | fuel + 1, cs0 =>
    let cs := skipJsonWs cs0
    match cs with
    | '\'' :: rest =>
      match parsePyStringBody '\'' (rest.length + 1) rest with
      | some (body, r) => some (.str (String.mk body), r)
      | none => none
    | '"' :: rest =>
      match parsePyStringBody '"' (rest.length + 1) rest with
      | some (body, r) => some (.str (String.mk body), r)
      | none => none
    | '[' :: rest =>
      match skipJsonWs rest with
      | ']' :: r2 => some (.arr [], r2)
      | _ => parseLitElems fuel rest []
    | '{' :: rest =>
      match skipJsonWs rest with
      | '}' :: r2 => some (.obj [], r2)
      | _ => parseLitMembers fuel rest []
    | '-' :: rest => parseLitInt true (skipJsonWs rest)
    | '+' :: rest => parseLitInt false (skipJsonWs rest)
    | c :: _ =>
      if c.isDigit then parseLitInt false cs
      else if pyIdentStart c then
        let word := String.mk (cs.takeWhile pyIdentCont)
        let rest := cs.dropWhile pyIdentCont
        if word = "True" then some (.bool true, rest)
        else if word = "False" then some (.bool false, rest)
        else if word = "None" then some (.null, rest)
        else none
      else none
    | [] => none

/-- Elements of a non-empty list display; a trailing comma is allowed. -/
def parseLitElems : Nat → List Char → List Json → Option (Json × List Char)
  | 0, _, _ => none
  | fuel + 1, cs0, acc =>
    match parseLit fuel cs0 with
    | some (v, r1) =>
      match skipJsonWs r1 with
      | ',' :: r3 =>
        match skipJsonWs r3 with
        | ']' :: r4 => some (.arr (acc ++ [v]), r4)
        | _ => parseLitElems fuel r3 (acc ++ [v])
      | ']' :: r3 => some (.arr (acc ++ [v]), r3)
      | _ => none
    | none => none

/-- Members of a non-empty dict display with string-literal keys; a
trailing comma is allowed.  Duplicates follow dict semantics. -/
def parseLitMembers : Nat → List Char → List (String × Json) →
    Option (Json × List Char)
  | 0, _, _ => none
  | fuel + 1, cs0, acc =>
    match parseLit fuel cs0 with
    | some (.str k, r1) =>
      match skipJsonWs r1 with
      | ':' :: r3 =>
        match parseLit fuel r3 with
        | some (v, r4) =>
          let acc2 := acc ++ [(k, v)]
          match skipJsonWs r4 with
          | ',' :: r6 =>
            match skipJsonWs r6 with
            | '}' :: r7 => some (.obj (pyDict acc2), r7)
            | _ => parseLitMembers fuel r6 acc2
          | '}' :: r6 => some (.obj (pyDict acc2), r6)
          | _ => none
        | none => none
      | _ => none
    | _ => none

end

/-- Partial model of `ast.literal_eval` (see the section comment).  A bare
identifier is a `Name` node: the expression parses but the conversion
raises `ValueError`. -/
def literal_eval (s : String) : LitResult :=
  match s.toList with
  | [] => .syntaxError
  | c :: _ =>
    if isPyWs c then .syntaxError
    else if pyIdentStart c then
      let cs := s.toList
      let word := String.mk (cs.takeWhile pyIdentCont)
      let rest := cs.dropWhile pyIdentCont
      if word = "True" || word = "False" || word = "None" then
        match parseLit (cs.length + 1) cs with
        | some (j, r) => if (skipJsonWs r).isEmpty then .ok j else .syntaxError
        | none => .syntaxError
      else if (skipJsonWs rest).isEmpty then
        if pyKeywords.contains word then .syntaxError else .valueError
      else .syntaxError
    else
      match parseLit (s.toList.length + 1) s.toList with
      | some (j, rest) =>
        if (skipJsonWs rest).isEmpty then .ok j else .syntaxError
      | none => .syntaxError

/-! ### `clean_json_string` (src/main.py lines 62-114) -/

/-- Result of one entry of `parsing_attempts`: a parsed value, an
exception the `except (json.JSONDecodeError, SyntaxError)` at line 106
catches, or one it does not. -/
inductive AttemptResult where
  | ok (j : Json)
  | caught
  | uncaught

/-- `json.loads` raises `json.JSONDecodeError` (caught) on failure. -/
def ofLoads : Option Json → AttemptResult
  | some j => .ok j
  | none => .caught

/-- Strategy (a): `lambda s: json.loads(s)`. -/
def attemptDirect (s : String) : AttemptResult :=
  ofLoads (json_loads s)

/-- Strategy (b): `lambda s: json.loads(re.sub(r'\\n\s*', '', s))`. -/
def attemptRemoveEscNl (s : String) : AttemptResult :=
  ofLoads (json_loads (removeEscapedNewlines s))

/-- Strategy (c):
`lambda s: json.loads(s.replace('\\"', '"').replace('\\n', ' '))`. -/
def attemptReplaceEscapes (s : String) : AttemptResult :=
  ofLoads (json_loads (replaceEscapes s))

/-- Strategy (d): `lambda s: json.loads(re.sub(r'\\["\'ntr]', ' ', s))`. -/
def attemptAggressive (s : String) : AttemptResult :=
  ofLoads (json_loads (aggressiveClean s))

/-- Strategy (e): `lambda s: ast.literal_eval(s)`.  A `SyntaxError` is
caught by the caller's `except` clause; a `ValueError` is not. -/
def attemptLiteralEval (s : String) : AttemptResult :=
  match literal_eval s with
  | .ok j => .ok j
  | .syntaxError => .caught
  | .valueError => .uncaught

/-- The ordered `parsing_attempts` list (src/main.py lines 88-94). -/
def parsing_attempts : List (String → AttemptResult) :=
  [attemptDirect, attemptRemoveEscNl, attemptReplaceEscapes,
   attemptAggressive, attemptLiteralEval]

/-- What `clean_json_string` returns: the `for`-loop's `return` of the
snake-cased value or the failure dict, or the propagation of an uncaught
exception. -/
inductive PyOutcome where
  | ret (j : Json)
  | exc

/-- The `for attempt in parsing_attempts` loop: first `.ok` wins and is
snake-cased; `.caught` continues; `.uncaught` propagates; `none` means
every attempt failed with a caught exception. -/
def runAttempts : List (String → AttemptResult) → String → Option PyOutcome
  | [], _ => none
  | a :: rest, s =>
    match a s with
    | .ok j => some (.ret (convert_to_snake_case j))
    | .caught => runAttempts rest s
    | .uncaught => some .exc

/-- The failure dict of src/main.py lines 110-114.  Note that at this
point `json_string` holds the de-fenced working string, because line 85
reassigned it. -/
def failure_record (original : String) : Json :=
  .obj [("error", .str "Failed to parse JSON"),
        ("original_string", .str original),
        ("error_details", .str "All parsing attempts failed")]

/-- `clean_json_string` (src/main.py lines 62-114). -/
def clean_json_string (json_string : String) : PyOutcome :=
  match runAttempts parsing_attempts (defenceStep json_string) with
  | some o => o
  | none => .ret (failure_record (defenceStep json_string))

/-! ### `extract_text_from_file` (src/main.py lines 14-48)

The document-parsing libraries (PyPDF2, python-docx, UTF-8 decoding) are
external collaborators; an uploaded file's byte content is modelled as an
oracle structure giving, for each library, either its result on those
bytes or the `str` of the exception it raises. -/

/-- The three possible readings of one uploaded file's bytes:
`pdfParse` is `[page.extract_text() for page in PdfReader(...).pages]`,
`docxParse` is `[para.text for para in Document(...).paragraphs]`,
`utf8Decode` is `content.decode('utf-8')`; an `.error` carries the
`str` of the exception the library raises on these bytes. -/
structure FileBytes where
  pdfParse : Except String (List String)
  docxParse : Except String (List String)
  utf8Decode : Except String String

/-- An exception escaping the extraction `try` body: a FastAPI
`HTTPException` (which subclasses `Exception`) or a library error. -/
inductive ExtractExc where
  | http (status : Nat) (detail : String)
  | libError (msg : String)

/-- Python `str(e)` for the exceptions above; for `HTTPException`,
starlette defines `__str__` as the status code, a colon-space, and the
detail. -/
def strOfExc : ExtractExc → String
  | .http st d => toString st ++ ": " ++ d
  | .libError m => m

/-- Python `str.lower()` on a filename (ASCII model). -/
def pyLower (s : String) : String :=
  String.mk (s.toList.map pyLowerChar)

/-- Python `a.endswith(b)`. -/
def pyEndsWith (s suf : String) : Bool :=
  suf.toList.reverse.isPrefixOf s.toList.reverse

/-- `' '.join` at the character level: one space between consecutive
segments, empty segments kept. -/
def joinSpChars : List (List Char) → List Char
  | [] => []
  | [w] => w
  | w :: ws => w ++ ' ' :: joinSpChars ws

/-- `' '.join(l)`: concatenate with single-space separators, keeping empty
segments. -/
def joinSpace (l : List String) : String :=
  String.mk (joinSpChars (l.map String.toList))

/-- The body of `extract_text_from_file`'s `try` block (src/main.py lines
25-46): dispatch on the lowered filename's extension; `' '.join` of every
page text for PDF, `' '.join` of the non-empty paragraph texts for DOCX
(`if para.text` is Python truthiness: non-empty), verbatim UTF-8 decode
for TXT, and `raise HTTPException(status_code=400, ...)` otherwise. -/
def extractBody (filename : String) (c : FileBytes) : Except ExtractExc String :=
  if pyEndsWith (pyLower filename) ".pdf" then
    match c.pdfParse with
    | .ok pages => .ok (joinSpace pages)
    | .error m => .error (.libError m)
  else if pyEndsWith (pyLower filename) ".docx" then
    match c.docxParse with
    | .ok paras => .ok (joinSpace (paras.filter (fun p => p ≠ "")))
    | .error m => .error (.libError m)
  else if pyEndsWith (pyLower filename) ".txt" then
    match c.utf8Decode with
    | .ok t => .ok t
    | .error m => .error (.libError m)
  else .error (.http 400 "Unsupported file type")

/-- `extract_text_from_file` (src/main.py lines 14-48).  The
`except Exception` at line 47 catches EVERY exception from the body —
including the `HTTPException(400)` raised for an unsupported extension,
since `HTTPException` subclasses `Exception` — and re-raises it as
`HTTPException(500, "Error extracting text: " + str(e))`. -/
def extract_text_from_file (filename : String) (c : FileBytes) :
    Except ExtractExc String :=
  match extractBody filename c with
  | .ok t => .ok t
  | .error e => .error (.http 500 ("Error extracting text: " ++ strOfExc e))

/-! ### `convert_to_single_string` (src/main.py lines 50-61) -/

/-- Python `str.split()` with no arguments on a character list: maximal
runs of non-whitespace characters, with whitespace runs discarded.  The
fuel is the input length; each unit of fuel consumes at least one
character. -/
def splitWordsF : Nat → List Char → List (List Char)
  | 0, _ => []
  | _ + 1, [] => []
  | fuel + 1, c :: cs =>
    if isPyWs c then splitWordsF fuel cs
    else (c :: cs.takeWhile (fun d => !isPyWs d))
      :: splitWordsF fuel (cs.dropWhile (fun d => !isPyWs d))

/-- Python `text.split()`. -/
def pySplit (s : String) : List String :=
  (splitWordsF s.toList.length s.toList).map String.mk

/-- `convert_to_single_string` (src/main.py line 61):
`' '.join(text.split())`. -/
def convert_to_single_string (text : String) : String :=
  joinSpace (pySplit text)

/-! ### Predicates used by the theorems -/

/-- `AttemptResult.caught` as a Boolean (a parse failure the `except`
clause catches). -/
def isCaught : AttemptResult → Bool
  | .caught => true
  | _ => false

/-- No two consecutive whitespace characters. -/
def noDoubleWs : List Char → Bool
  | c :: d :: rest => !(isPyWs c && isPyWs d) && noDoubleWs (d :: rest)
  | _ => true

/-- The first character, if any, is not whitespace. -/
def headNotWs : List Char → Bool
  | [] => true
  | c :: _ => !isPyWs c

mutual

/-- Every dict at every depth has pairwise-distinct keys (the invariant of
a value produced by a Python parser) that are already snake_case, i.e.
contain no `[A-Z]` character. -/
def SnakeWf : Json → Prop
  | .obj kvs => (kvs.map Prod.fst).Nodup ∧ SnakeWfPairs kvs
  | .arr xs => SnakeWfList xs
  | .null => True
  | .bool _ => True
  | .num _ => True
  | .float _ => True
  | .str _ => True

/-- `SnakeWf` element-wise. -/
def SnakeWfList : List Json → Prop
  | [] => True
  | x :: xs => SnakeWf x ∧ SnakeWfList xs

/-- `SnakeWf` pair-wise: each key has no `[A-Z]` character and each value
is `SnakeWf`. -/
def SnakeWfPairs : List (String × Json) → Prop
  | [] => True
  | (k, v) :: kvs =>
    (∀ c ∈ k.toList, upperAZ c = false) ∧ SnakeWf v ∧ SnakeWfPairs kvs

end

/-! ## Helper lemmas -/

theorem stringMk_toList (s : String) : String.mk s.toList = s := rfl

theorem toNat_ofNat_valid {n : Nat} (h : n < 0xd800) :
    (Char.ofNat n).toNat = n := by
  rw [Char.ofNat, dif_pos (Or.inl (by exact_mod_cast h))]
  simp [Char.ofNatAux, Char.toNat, UInt32.toNat]

theorem upperAZ_pyLowerChar (c : Char) : upperAZ (pyLowerChar c) = false := by
  unfold pyLowerChar
  by_cases h : upperAZ c = true
  · rw [if_pos h]
    unfold upperAZ at h ⊢
    simp only [Bool.and_eq_true, decide_eq_true_eq] at h
    have h32 : (Char.ofNat (c.toNat + 32)).toNat = c.toNat + 32 :=
      toNat_ofNat_valid (by omega)
    simp only [h32]
    simp only [Bool.and_eq_false_iff, decide_eq_false_iff_not]
    right
    omega
  · rw [if_neg h]
    exact Bool.not_eq_true _ ▸ h

theorem pyLowerChar_of_not_upper {c : Char} (h : upperAZ c = false) :
    pyLowerChar c = c := by
  unfold pyLowerChar
  rw [h]
  rfl

theorem snakeTail_of_noUpper {l : List Char}
    (h : ∀ c ∈ l, upperAZ c = false) : snakeTail l = l := by
  induction l with
  | nil => rfl
  | cons c cs ih =>
    rw [snakeTail, h c (by simp), ih fun d hd => h d (by simp [hd])]
    rfl

theorem map_pyLower_of_noUpper {l : List Char}
    (h : ∀ c ∈ l, upperAZ c = false) : l.map pyLowerChar = l := by
  induction l with
  | nil => rfl
  | cons c cs ih =>
    simp only [List.map_cons, pyLowerChar_of_not_upper (h c (by simp)),
      ih fun d hd => h d (by simp [hd])]

theorem snakeCaseKey_fixed {k : String}
    (h : ∀ c ∈ k.toList, upperAZ c = false) : snakeCaseKey k = k := by
  unfold snakeCaseKey
  cases hk : k.toList with
  | nil =>
    rw [← stringMk_toList k, hk]
    rfl
  | cons c cs =>
    rw [hk] at h
    rw [snakeChars, snakeTail_of_noUpper fun d hd => h d (by simp [hd])]
    rw [map_pyLower_of_noUpper h, ← hk, stringMk_toList]

theorem snakeCaseKey_noUpper (k : String) :
    ∀ c ∈ (snakeCaseKey k).toList, upperAZ c = false := by
  intro c hc
  unfold snakeCaseKey at hc
  have : c ∈ (snakeChars k.toList).map pyLowerChar := hc
  obtain ⟨d, _, rfl⟩ := List.mem_map.1 this
  exact upperAZ_pyLowerChar d

theorem snakeCaseKey_idem (k : String) :
    snakeCaseKey (snakeCaseKey k) = snakeCaseKey k :=
  snakeCaseKey_fixed (snakeCaseKey_noUpper k)

theorem insertKey_mem {acc : List (String × Json)} {k : String} {v : Json}
    {p : String × Json} (h : p ∈ insertKey acc k v) : p ∈ acc ∨ p = (k, v) := by
  induction acc with
  | nil =>
    simp [insertKey] at h
    exact Or.inr h
  | cons q rest ih =>
    obtain ⟨k', v'⟩ := q
    rw [insertKey] at h
    by_cases hk : k' = k
    · rw [if_pos hk] at h
      rcases List.mem_cons.1 h with h | h
      · subst hk
        exact Or.inr h
      · exact Or.inl (List.mem_cons.2 (Or.inr h))
    · rw [if_neg hk] at h
      rcases List.mem_cons.1 h with h | h
      · exact Or.inl (List.mem_cons.2 (Or.inl h))
      · rcases ih h with h | h
        · exact Or.inl (List.mem_cons.2 (Or.inr h))
        · exact Or.inr h

theorem insertKey_keys_of_mem {acc : List (String × Json)} {k : String}
    (v : Json) (h : k ∈ acc.map Prod.fst) :
    (insertKey acc k v).map Prod.fst = acc.map Prod.fst := by
  induction acc with
  | nil => simp at h
  | cons q rest ih =>
    obtain ⟨k', v'⟩ := q
    rw [insertKey]
    by_cases hk : k' = k
    · rw [if_pos hk]
      simp
    · rw [if_neg hk]
      simp only [List.map_cons]
      simp only [List.map_cons, List.mem_cons] at h
      rcases h with h | h
      · exact absurd h.symm hk
      · rw [ih h]

theorem insertKey_of_not_mem {acc : List (String × Json)} {k : String}
    (v : Json) (h : k ∉ acc.map Prod.fst) :
    insertKey acc k v = acc ++ [(k, v)] := by
  induction acc with
  | nil => rfl
  | cons q rest ih =>
    obtain ⟨k', v'⟩ := q
    simp only [List.map_cons, List.mem_cons] at h
    push_neg at h
    rw [insertKey, if_neg (fun hk => h.1 hk.symm), ih h.2]
    rfl

theorem insertKey_keys_nodup {acc : List (String × Json)} {k : String}
    (v : Json) (h : (acc.map Prod.fst).Nodup) :
    ((insertKey acc k v).map Prod.fst).Nodup := by
  by_cases hk : k ∈ acc.map Prod.fst
  · rw [insertKey_keys_of_mem v hk]
    exact h
  · rw [insertKey_of_not_mem v hk]
    simp only [List.map_append, List.map_cons, List.map_nil]
    rw [List.nodup_append]
    refine ⟨h, List.nodup_singleton k, ?_⟩
    intro a ha hak
    rw [List.mem_singleton] at hak
    exact hk (hak ▸ ha)

theorem pyDictAux_keys_nodup (l : List (String × Json)) :
    ∀ acc : List (String × Json), (acc.map Prod.fst).Nodup →
    ((pyDictAux acc l).map Prod.fst).Nodup := by
  induction l with
  | nil =>
    intro acc h
    exact h
  | cons q rest ih =>
    intro acc h
    obtain ⟨k, v⟩ := q
    rw [pyDictAux]
    exact ih _ (insertKey_keys_nodup v h)

theorem pyDict_keys_nodup (l : List (String × Json)) :
    ((pyDict l).map Prod.fst).Nodup :=
  pyDictAux_keys_nodup l [] (by simp)

theorem pyDictAux_mem (l : List (String × Json)) :
    ∀ (acc : List (String × Json)) (p : String × Json),
    p ∈ pyDictAux acc l → p ∈ acc ∨ p ∈ l := by
  induction l with
  | nil =>
    intro acc p h
    exact Or.inl h
  | cons q rest ih =>
    intro acc p h
    obtain ⟨k, v⟩ := q
    rw [pyDictAux] at h
    rcases ih _ _ h with h | h
    · rcases insertKey_mem h with h | h
      · exact Or.inl h
      · exact Or.inr (by simp [h])
    · exact Or.inr (List.mem_cons.2 (Or.inr h))

theorem pyDict_mem {l : List (String × Json)} {p : String × Json}
    (h : p ∈ pyDict l) : p ∈ l := by
  rcases pyDictAux_mem l [] p h with h | h
  · simp at h
  · exact h

theorem pyDictAux_of_nodup (l : List (String × Json)) :
    ∀ acc : List (String × Json), ((acc ++ l).map Prod.fst).Nodup →
    pyDictAux acc l = acc ++ l := by
  induction l with
  | nil =>
    intro acc _
    simp [pyDictAux]
  | cons q rest ih =>
    intro acc h
    obtain ⟨k, v⟩ := q
    have hk : k ∉ acc.map Prod.fst := by
      simp only [List.map_append, List.nodup_append, List.map_cons] at h
      intro hmem
      exact h.2.2 hmem (by simp)
    rw [pyDictAux, insertKey_of_not_mem v hk, ih _ (by simpa using h)]
    simp

theorem pyDict_of_nodup {l : List (String × Json)}
    (h : (l.map Prod.fst).Nodup) : pyDict l = l :=
  pyDictAux_of_nodup l [] (by simpa using h)

theorem convertList_eq_map (l : List Json) :
    convertList l = l.map convert_to_snake_case := by
  induction l with
  | nil => rfl
  | cons x xs ih => rw [convertList, ih, List.map_cons]

theorem convertPairs_eq_map (l : List (String × Json)) :
    convertPairs l =
      l.map (fun p => (snakeCaseKey p.1, convert_to_snake_case p.2)) := by
  induction l with
  | nil => rfl
  | cons p ps ih =>
    obtain ⟨k, v⟩ := p
    rw [convertPairs, ih, List.map_cons]

theorem sizeOf_val_lt_obj {kvs : List (String × Json)} {k : String} {v : Json}
    (h : (k, v) ∈ kvs) : sizeOf v < sizeOf (Json.obj kvs) := by
  have h1 := List.sizeOf_lt_of_mem h
  have h2 : sizeOf (k, v) = 1 + sizeOf k + sizeOf v := by simp
  have h3 : sizeOf (Json.obj kvs) = 1 + sizeOf kvs := by simp
  omega

theorem sizeOf_elem_lt_arr {xs : List Json} {x : Json} (h : x ∈ xs) :
    sizeOf x < sizeOf (Json.arr xs) := by
  have h1 := List.sizeOf_lt_of_mem h
  have h2 : sizeOf (Json.arr xs) = 1 + sizeOf xs := by simp
  omega

theorem convert_idem_aux :
    ∀ n : Nat, ∀ j : Json, sizeOf j < n →
    convert_to_snake_case (convert_to_snake_case j) = convert_to_snake_case j := by
  intro n
  induction n with
  | zero =>
    intro j h
    omega
  | succ n ih =>
    intro j hj
    cases j with
    | null => rfl
    | bool b => rfl
    | num m => rfl
    | float l => rfl
    | str s => rfl
    | arr xs =>
      simp only [convert_to_snake_case, convertList_eq_map, List.map_map]
      congr 1
      apply List.map_congr_left
      intro x hx
      have : sizeOf x < n := by
        have := sizeOf_elem_lt_arr hx
        omega
      exact ih x this
    | obj kvs =>
      simp only [convert_to_snake_case]
      have hfix : ∀ p ∈ pyDict (convertPairs kvs),
          (snakeCaseKey p.1, convert_to_snake_case p.2) = p := by
        intro p hp
        have hp2 : p ∈ convertPairs kvs := pyDict_mem hp
        rw [convertPairs_eq_map] at hp2
        obtain ⟨q, hq, rfl⟩ := List.mem_map.1 hp2
        obtain ⟨k0, v0⟩ := q
        simp only
        rw [snakeCaseKey_idem]
        have hv : sizeOf v0 < n := by
          have := sizeOf_val_lt_obj hq
          omega
        rw [ih v0 hv]
      have hpairs : convertPairs (pyDict (convertPairs kvs)) =
          pyDict (convertPairs kvs) := by
        rw [convertPairs_eq_map]
        calc (pyDict (convertPairs kvs)).map
              (fun p => (snakeCaseKey p.1, convert_to_snake_case p.2))
            = (pyDict (convertPairs kvs)).map id := List.map_congr_left hfix
          _ = pyDict (convertPairs kvs) := List.map_id _
      rw [hpairs, pyDict_of_nodup (pyDict_keys_nodup _)]

theorem snakeWfPairs_forall {kvs : List (String × Json)}
    (h : SnakeWfPairs kvs) :
    ∀ p ∈ kvs, (∀ c ∈ p.1.toList, upperAZ c = false) ∧ SnakeWf p.2 := by
  induction kvs with
  | nil =>
    intro p hp
    simp at hp
  | cons q rest ih =>
    obtain ⟨k, v⟩ := q
    rw [SnakeWfPairs] at h
    intro p hp
    rcases List.mem_cons.1 hp with rfl | hp
    · exact ⟨h.1, h.2.1⟩
    · exact ih h.2.2 p hp

theorem snakeWfList_forall {xs : List Json} (h : SnakeWfList xs) :
    ∀ x ∈ xs, SnakeWf x := by
  induction xs with
  | nil =>
    intro x hx
    simp at hx
  | cons y ys ih =>
    rw [SnakeWfList] at h
    intro x hx
    rcases List.mem_cons.1 hx with rfl | hx
    · exact h.1
    · exact ih h.2 x hx

theorem convert_of_snakeWf_aux :
    ∀ n : Nat, ∀ j : Json, sizeOf j < n → SnakeWf j →
    convert_to_snake_case j = j := by
  intro n
  induction n with
  | zero =>
    intro j h
    omega
  | succ n ih =>
    intro j hj hw
    cases j with
    | null => rfl
    | bool b => rfl
    | num m => rfl
    | float l => rfl
    | str s => rfl
    | arr xs =>
      rw [SnakeWf] at hw
      simp only [convert_to_snake_case, convertList_eq_map]
      congr 1
      have hid : ∀ x ∈ xs, convert_to_snake_case x = x := by
        intro x hx
        have hs : sizeOf x < n := by
          have := sizeOf_elem_lt_arr hx
          omega
        exact ih x hs (snakeWfList_forall hw x hx)
      calc xs.map convert_to_snake_case = xs.map id := List.map_congr_left hid
        _ = xs := List.map_id _
    | obj kvs =>
      rw [SnakeWf] at hw
      simp only [convert_to_snake_case]
      have hid : ∀ p ∈ kvs,
          (snakeCaseKey p.1, convert_to_snake_case p.2) = p := by
        intro p hp
        obtain ⟨k0, v0⟩ := p
        obtain ⟨hkey, hval⟩ := snakeWfPairs_forall hw.2 (k0, v0) hp
        have hs : sizeOf v0 < n := by
          have := sizeOf_val_lt_obj hp
          omega
        simp only
        rw [snakeCaseKey_fixed hkey, ih v0 hs hval]
      have hpairs : convertPairs kvs = kvs := by
        rw [convertPairs_eq_map]
        calc kvs.map (fun p => (snakeCaseKey p.1, convert_to_snake_case p.2))
            = kvs.map id := List.map_congr_left hid
          _ = kvs := List.map_id _
      rw [hpairs, pyDict_of_nodup hw.1]

theorem mem_splitWordsF (fuel : Nat) :
    ∀ (cs w : List Char), w ∈ splitWordsF fuel cs →
    w ≠ [] ∧ ∀ c ∈ w, isPyWs c = false := by
  induction fuel with
  | zero =>
    intro cs w hw
    simp [splitWordsF] at hw
  | succ n ih =>
    intro cs w hw
    cases cs with
    | nil => simp [splitWordsF] at hw
    | cons c cs' =>
      rw [splitWordsF] at hw
      by_cases hc : isPyWs c = true
      · rw [if_pos hc] at hw
        exact ih cs' w hw
      · simp only [Bool.not_eq_true] at hc
        rw [if_neg (by simp [hc])] at hw
        rcases List.mem_cons.1 hw with rfl | hw
        · refine ⟨by simp, ?_⟩
          intro d hd
          rcases List.mem_cons.1 hd with rfl | hd
          · exact hc
          · simpa using List.mem_takeWhile_imp hd
        · exact ih _ w hw

theorem headNotWs_of_noWs {l : List Char}
    (h : ∀ c ∈ l, isPyWs c = false) : headNotWs l = true := by
  cases l with
  | nil => rfl
  | cons c cs => simpa [headNotWs] using h c (by simp)

theorem noDoubleWs_of_noWs {l : List Char}
    (h : ∀ c ∈ l, isPyWs c = false) : noDoubleWs l = true := by
  induction l with
  | nil => rfl
  | cons c cs ih =>
    cases cs with
    | nil => rfl
    | cons d cs' =>
      rw [noDoubleWs]
      rw [h c (by simp)]
      simp only [Bool.false_and, Bool.not_false, Bool.true_and]
      exact ih fun x hx => h x (by simp [hx])

theorem noDoubleWs_append {ys : List Char} (hy : noDoubleWs ys = true) :
    ∀ xs : List Char, noDoubleWs xs = true →
    (∀ a b, xs.getLast? = some a → ys.head? = some b →
      (isPyWs a && isPyWs b) = false) →
    noDoubleWs (xs ++ ys) = true := by
  intro xs
  induction xs with
  | nil =>
    intro _ _
    simpa using hy
  | cons x xs' ih =>
    intro hx hb
    cases xs' with
    | nil =>
      cases ys with
      | nil => simpa using hx
      | cons y ys' =>
        have hbxy := hb x y rfl rfl
        rw [List.singleton_append, noDoubleWs, hbxy]
        simpa using hy
    | cons x2 xs'' =>
      rw [noDoubleWs] at hx
      simp only [Bool.and_eq_true] at hx
      have htail := ih hx.2 fun a b ha hbh =>
        hb a b (by rw [List.getLast?_cons_cons]; exact ha) hbh
      rw [List.cons_append, List.cons_append, noDoubleWs]
      rw [List.cons_append] at htail
      rw [htail, hx.1]
      rfl

theorem joinSpChars_cons_cons (w w2 : List Char) (ws : List (List Char)) :
    joinSpChars (w :: w2 :: ws) = w ++ ' ' :: joinSpChars (w2 :: ws) := by
  rw [joinSpChars]
  exact List.cons_ne_nil _ _

theorem joinSp_ne_nil {w : List Char} {ws : List (List Char)} (hw : w ≠ []) :
    joinSpChars (w :: ws) ≠ [] := by
  cases ws with
  | nil => simpa [joinSpChars] using hw
  | cons w2 ws' =>
    rw [joinSpChars_cons_cons]
    intro h
    rcases List.append_eq_nil.1 h with ⟨_, h2⟩
    exact List.cons_ne_nil _ _ h2

theorem headNotWs_append_left {xs ys : List Char} (h : xs ≠ []) :
    headNotWs (xs ++ ys) = headNotWs xs := by
  cases xs with
  | nil => exact absurd rfl h
  | cons c cs => rfl

theorem joinSp_good :
    ∀ ws : List (List Char),
    (∀ w ∈ ws, w ≠ [] ∧ ∀ c ∈ w, isPyWs c = false) →
    noDoubleWs (joinSpChars ws) = true ∧
    headNotWs (joinSpChars ws) = true ∧
    headNotWs (joinSpChars ws).reverse = true := by
  intro ws
  induction ws with
  | nil =>
    intro _
    exact ⟨rfl, rfl, rfl⟩
  | cons w ws' ih =>
    intro h
    obtain ⟨hwne, hwchars⟩ := h w (by simp)
    cases ws' with
    | nil =>
      refine ⟨noDoubleWs_of_noWs hwchars, headNotWs_of_noWs hwchars, ?_⟩
      exact headNotWs_of_noWs fun c hc => hwchars c (List.mem_reverse.1 hc)
    | cons w2 ws'' =>
      have hrest := ih fun u hu => h u (by simp [hu])
      have hJne : joinSpChars (w2 :: ws'') ≠ [] :=
        joinSp_ne_nil (h w2 (by simp)).1
      have hspJ : noDoubleWs (' ' :: joinSpChars (w2 :: ws'')) = true := by
        cases hJ : joinSpChars (w2 :: ws'') with
        | nil => exact absurd hJ hJne
        | cons j J' =>
          rw [noDoubleWs]
          have hjhead : headNotWs (j :: J') = true := hJ ▸ hrest.2.1
          rw [headNotWs] at hjhead
          have hj : isPyWs j = false := by
            simpa using hjhead
          rw [hj]
          have := hrest.1
          rw [hJ] at this
          rw [this]
          rfl
      refine ⟨?_, ?_, ?_⟩
      · rw [joinSpChars_cons_cons]
        apply noDoubleWs_append hspJ _ (noDoubleWs_of_noWs hwchars)
        intro a b ha hbh
        have ha2 : a ∈ w := by
          obtain ⟨hne, rfl⟩ := List.mem_getLast?_eq_getLast (Option.mem_def.2 ha)
          exact List.getLast_mem hne
        rw [hwchars a ha2]
        rfl
      · rw [joinSpChars_cons_cons, headNotWs_append_left hwne]
        exact headNotWs_of_noWs hwchars
      · rw [joinSpChars_cons_cons, List.reverse_append, List.reverse_cons]
        rw [List.append_assoc]
        rw [headNotWs_append_left (by simpa using hJne)]
        exact hrest.2.2

theorem isCaught_eq {r : AttemptResult} (h : isCaught r = true) :
    r = .caught := by
  cases r with
  | ok j => simp [isCaught] at h
  | caught => rfl
  | uncaught => simp [isCaught] at h

theorem endsTicks_append (xs : List Char) :
    endsTicks (xs ++ ['`', '`', '`']) = true := by
  unfold endsTicks
  rw [List.reverse_append]
  rfl

theorem dropThroughNl_through {head : List Char} (hnl : '\n' ∉ head)
    (r : List Char) : dropThroughNl (head ++ '\n' :: r) = some r := by
  induction head with
  | nil => rfl
  | cons c cs ih =>
    rw [List.cons_append, dropThroughNl,
      if_neg (fun hc => hnl (by simp [hc]))]
    exact ih fun hh => hnl (by simp [hh])

theorem stripFenceTail_append (body : List Char) :
    stripFenceTail (body ++ ['`', '`', '`']) = body := by
  rw [stripFenceTail, if_pos (endsTicks_append body)]
  rw [List.reverse_append]
  simp

theorem pyLowerChar_ne_underscore {c : Char} (hc : upperAZ c = true) :
    pyLowerChar c ≠ '_' := by
  unfold pyLowerChar
  rw [if_pos hc]
  unfold upperAZ at hc
  simp only [Bool.and_eq_true, decide_eq_true_eq] at hc
  intro heq
  have hv : (Char.ofNat (c.toNat + 32)).toNat = c.toNat + 32 :=
    toNat_ofNat_valid (by omega)
  rw [heq] at hv
  have h95 : ('_' : Char).toNat = 95 := rfl
  omega

/-! ## The claims -/

/-- Claim C1, counterexample.  The claim says the failure record's
`original_string` equals the original raw input before fence-stripping;
on the fenced input below, whose interior fails all five strategies, the
record instead carries the de-fenced working string `"@\n"`, which
differs from the raw input. -/
theorem claim_C1_counterexample :
    clean_json_string "```\n@\n```" = .ret (failure_record "@\n") ∧
    ("@\n" : String) ≠ "```\n@\n```" :=
  ⟨rfl, by decide⟩

/-- Claim C1, amended: when every parse strategy fails with a caught
exception, `clean_json_string` returns the failure record with `error`
fixed to "Failed to parse JSON" and `error_details` fixed to "All parsing
attempts failed", and `original_string` equal to the de-fenced working
string (which equals the raw input only when no fence was stripped). -/
theorem claim_C1_failure_record (s : String)
    (h : ∀ a ∈ parsing_attempts, isCaught (a (defenceStep s)) = true) :
    clean_json_string s = .ret (failure_record (defenceStep s)) := by
  have h1 := isCaught_eq (h attemptDirect (by simp [parsing_attempts]))
  have h2 := isCaught_eq (h attemptRemoveEscNl (by simp [parsing_attempts]))
  have h3 := isCaught_eq (h attemptReplaceEscapes (by simp [parsing_attempts]))
  have h4 := isCaught_eq (h attemptAggressive (by simp [parsing_attempts]))
  have h5 := isCaught_eq (h attemptLiteralEval (by simp [parsing_attempts]))
  have hrun : runAttempts parsing_attempts (defenceStep s) = none := by
    simp only [parsing_attempts, runAttempts, h1, h2, h3, h4, h5]
  unfold clean_json_string
  rw [hrun]

/-- Claim C1, witness: the unfenced input `"@"` fails every strategy and
yields the failure record whose `original_string` is `"@"` itself. -/
theorem claim_C1_witness :
    clean_json_string "@" = .ret (failure_record "@") :=
  claim_C1_failure_record "@" (by decide)

/-- Claim C2 (code bug): the claim says an unsupported extension surfaces
as a client error; in the code, the `HTTPException(400)` raised at line 44
is caught by the blanket `except Exception` at line 47 (HTTPException
subclasses Exception) and re-raised as a 500 server error wrapping the 400
message — for ANY byte content. -/
theorem claim_C2_unsupported_type :
    ∀ c : FileBytes, extract_text_from_file "resume.rtf" c =
      .error (.http 500 "Error extracting text: 400: Unsupported file type") :=
  fun _ => rfl

/-- Claim C3 (code bug): the claim says `clean_json_string` never raises;
on input `"foo"` all four JSON strategies fail with caught
`JSONDecodeError`s, and `ast.literal_eval("foo")` parses a `Name` node and
raises `ValueError`, which the `except (json.JSONDecodeError, SyntaxError)`
clause does not catch, so the exception escapes. -/
theorem claim_C3_uncaught_exception :
    clean_json_string "foo" = .exc := rfl

/-- Claim C4: a working string that parses directly as JSON succeeds at
strategy (a); the result is the recursive snake-casing of the parsed
value, and no failure record is produced. -/
theorem claim_C4_direct_parse (s : String) (v : Json)
    (h : json_loads (defenceStep s) = some v) :
    clean_json_string s = .ret (convert_to_snake_case v) := by
  have hrun : runAttempts parsing_attempts (defenceStep s) =
      some (.ret (convert_to_snake_case v)) := by
    simp only [parsing_attempts, runAttempts, attemptDirect, ofLoads, h]
  unfold clean_json_string
  rw [hrun]

/-- Claim C4, witness: the spec's concrete scenario. -/
theorem claim_C4_witness :
    clean_json_string "\x7b\"candidateName\": \"Jane\", \"scoreOutOfTen\": 7\x7d" =
      .ret (Json.obj [("candidate_name", .str "Jane"), ("score_out_of_ten", .num 7)]) :=
  claim_C4_direct_parse _
    (Json.obj [("candidateName", .str "Jane"), ("scoreOutOfTen", .num 7)]) rfl

/-- Claim C5: the key transformation inserts an underscore before each
`[A-Z]` character that is not the first character and lowercases the
result: `overallScore ↦ overall_score`; a key with no uppercase character
is unchanged; a key beginning with an uppercase letter starts with that
letter's lowercase form, not an underscore. -/
theorem claim_C5_key_rule :
    snakeCaseKey "overallScore" = "overall_score" ∧
    (∀ k : String, (∀ c ∈ k.toList, upperAZ c = false) → snakeCaseKey k = k) ∧
    (∀ (c : Char) (cs : List Char), upperAZ c = true →
      (snakeCaseKey (String.mk (c :: cs))).toList.head? = some (pyLowerChar c) ∧
      (snakeCaseKey (String.mk (c :: cs))).toList.head? ≠ some '_') := by
  refine ⟨rfl, fun k h => snakeCaseKey_fixed h, ?_⟩
  intro c cs hc
  constructor
  · rfl
  · intro h
    have : pyLowerChar c = '_' := by
      have h2 : some (pyLowerChar c) = some '_' := by
        rw [← h]
        rfl
      exact Option.some.inj h2
    exact pyLowerChar_ne_underscore hc this

/-- Claim C5, witness: an already-snake key is unchanged and an
uppercase-initial key gets no leading underscore. -/
theorem claim_C5_witness :
    snakeCaseKey "already_snake9" = "already_snake9" ∧
    (snakeCaseKey (String.mk ('A' :: "bc".toList))).toList.head? ≠ some '_' :=
  ⟨claim_C5_key_rule.2.1 "already_snake9" (by decide),
   (claim_C5_key_rule.2.2 'A' "bc".toList (by decide)).2⟩

/-- Claim C6: key normalization is idempotent — on a mapping whose keys at
every depth are already snake_case (and, as for every Python dict,
pairwise distinct), `convert_to_snake_case` is the identity; and for every
value whatsoever, applying it twice equals applying it once. -/
theorem claim_C6_idempotent :
    (∀ j : Json, SnakeWf j → convert_to_snake_case j = j) ∧
    (∀ j : Json, convert_to_snake_case (convert_to_snake_case j) =
      convert_to_snake_case j) :=
  ⟨fun j hw => convert_of_snakeWf_aux (sizeOf j + 1) j (by omega) hw,
   fun j => convert_idem_aux (sizeOf j + 1) j (by omega)⟩

/-- Claim C6, witness: a nested already-snake mapping is returned
unchanged. -/
theorem claim_C6_witness :
    convert_to_snake_case
        (Json.obj [("a_b", Json.arr [Json.obj [("c", Json.num 1)]])]) =
      Json.obj [("a_b", Json.arr [Json.obj [("c", Json.num 1)]])] :=
  claim_C6_idempotent.1 _
    ⟨by simp, by decide, ⟨⟨by simp, by decide, trivial, trivial⟩, trivial⟩, trivial⟩

/-- Claim C7: PDF extraction joins all page texts with single spaces,
keeping empty segments; DOCX extraction joins only the non-empty
paragraph texts.  The spec's two concrete examples are included. -/
theorem claim_C7_join_asymmetry :
    (∀ (f : String) (c : FileBytes) (pages : List String),
      pyEndsWith (pyLower f) ".pdf" = true → c.pdfParse = .ok pages →
      extract_text_from_file f c = .ok (joinSpace pages)) ∧
    (∀ (f : String) (c : FileBytes) (paras : List String),
      pyEndsWith (pyLower f) ".pdf" = false →
      pyEndsWith (pyLower f) ".docx" = true → c.docxParse = .ok paras →
      extract_text_from_file f c =
        .ok (joinSpace (paras.filter (fun p => p ≠ "")))) ∧
    extract_text_from_file "a.pdf" ⟨.ok ["", "World"], .error "", .error ""⟩ =
      .ok " World" ∧
    extract_text_from_file "a.docx"
        ⟨.error "", .ok ["Hello", "", "World"], .error ""⟩ =
      .ok "Hello World" := by
  refine ⟨?_, ?_, rfl, rfl⟩
  · intro f c pages hf hp
    unfold extract_text_from_file extractBody
    rw [hf, hp]
    simp
  · intro f c paras hfp hfd hp
    unfold extract_text_from_file extractBody
    rw [hfp, hfd, hp]
    simp

/-- Claim C7, witness: instances of the two general parts. -/
theorem claim_C7_witness :
    extract_text_from_file "b.PDF" ⟨.ok ["x", "", "y"], .error "", .error ""⟩ =
      .ok (joinSpace ["x", "", "y"]) ∧
    extract_text_from_file "b.DocX" ⟨.error "", .ok ["", "p"], .error ""⟩ =
      .ok (joinSpace ([("" : String), "p"].filter (fun p => p ≠ ""))) :=
  ⟨claim_C7_join_asymmetry.1 "b.PDF" _ _ rfl rfl,
   claim_C7_join_asymmetry.2.1 "b.DocX" _ _ rfl rfl rfl⟩

/-- Claim C8, counterexample.  The claim says that without a fence the
working string equals the TRIMMED input; the code leaves the input
untrimmed, so on `" @"` the working string keeps its leading space and
differs from the trimmed input. -/
theorem claim_C8_counterexample :
    defenceStep " @" = " @" ∧ pyStrip " @" = "@" ∧ (" @" : String) ≠ "@" :=
  ⟨rfl, rfl, by decide⟩

/-- Claim C8, amended: if the trimmed input does not both start and end
with a triple-backtick marker, de-fencing is a no-op and the working
string equals the ORIGINAL input unchanged (not trimmed); if it does, the
first fence line (through its newline) and the trailing backtick marker
are stripped from the trimmed input, leaving the interior as the working
string. -/
theorem claim_C8_defencing :
    (∀ s : String,
      (startsTicks (pyStripChars s.toList) &&
        endsTicks (pyStripChars s.toList)) = false →
      defenceStep s = s) ∧
    (∀ (s : String) (head body : List Char), '\n' ∉ head →
      pyStripChars s.toList =
        '`' :: '`' :: '`' :: (head ++ '\n' :: (body ++ ['`', '`', '`'])) →
      defenceStep s = String.mk body) := by
  constructor
  · intro s h
    unfold defenceStep
    rw [h]
    rfl
  · intro s head body hnl hstrip
    have hsplit : '`' :: '`' :: '`' :: (head ++ '\n' :: (body ++ ['`', '`', '`'])) =
        ('`' :: '`' :: '`' :: (head ++ '\n' :: body)) ++ ['`', '`', '`'] := by
      simp
    have hstart : startsTicks
        ('`' :: '`' :: '`' :: (head ++ '\n' :: (body ++ ['`', '`', '`']))) = true := rfl
    have hend : endsTicks
        ('`' :: '`' :: '`' :: (head ++ '\n' :: (body ++ ['`', '`', '`']))) = true := by
      rw [hsplit]
      exact endsTicks_append _
    have hhead : stripFenceHead
        ('`' :: '`' :: '`' :: (head ++ '\n' :: (body ++ ['`', '`', '`']))) =
        body ++ ['`', '`', '`'] := by
      rw [stripFenceHead, dropThroughNl_through hnl]
    unfold defenceStep
    rw [hstrip, hstart, hend, hhead, stripFenceTail_append]
    rfl

/-- Claim C8, witness: a no-op instance and a fenced instance. -/
theorem claim_C8_witness :
    defenceStep "x" = "x" ∧
    defenceStep "```json\n\x7b\"a\": 1\x7d\n```" = "\x7b\"a\": 1\x7d\n" :=
  ⟨claim_C8_defencing.1 "x" rfl,
   claim_C8_defencing.2 "```json\n\x7b\"a\": 1\x7d\n```"
     "json".toList "\x7b\"a\": 1\x7d\n".toList (by decide) rfl⟩

/-- Claim C9: `convert_to_single_string` equals the input's
whitespace-separated words joined by single spaces, and its output has no
two consecutive whitespace characters and no leading or trailing
whitespace. -/
theorem claim_C9_single_string (s : String) :
    convert_to_single_string s = joinSpace (pySplit s) ∧
    noDoubleWs (convert_to_single_string s).toList = true ∧
    headNotWs (convert_to_single_string s).toList = true ∧
    headNotWs (convert_to_single_string s).toList.reverse = true := by
  have key : (convert_to_single_string s).toList =
      joinSpChars (splitWordsF s.toList.length s.toList) := by
    unfold convert_to_single_string joinSpace pySplit
    rw [List.map_map]
    show joinSpChars (List.map (String.toList ∘ String.mk)
      (splitWordsF s.toList.length s.toList)) = _
    congr 1
    calc List.map (String.toList ∘ String.mk)
          (splitWordsF s.toList.length s.toList)
        = List.map id (splitWordsF s.toList.length s.toList) :=
          List.map_congr_left fun l _ => rfl
      _ = _ := List.map_id _
  have hgood := joinSp_good (splitWordsF s.toList.length s.toList)
    (mem_splitWordsF s.toList.length s.toList)
  refine ⟨rfl, ?_, ?_, ?_⟩
  · rw [key]
    exact hgood.1
  · rw [key]
    exact hgood.2.1
  · rw [key]
    exact hgood.2.2

/-- Claim C10: when two distinct keys of the same mapping collide after
normalization, the result binds the collided key to the transformed value
of the LATER key; the earlier key's value is dropped and no error is
raised. -/
theorem claim_C10_collision (k1 k2 : String) (v1 v2 : Json)
    (hne : k1 ≠ k2) (hcol : snakeCaseKey k1 = snakeCaseKey k2) :
    convert_to_snake_case (Json.obj [(k1, v1), (k2, v2)]) =
      Json.obj [(snakeCaseKey k1, convert_to_snake_case v2)] := by
  simp only [convert_to_snake_case, convertPairs, pyDict, pyDictAux,
    insertKey, hcol, if_pos]

/-- Claim C10, witness: `"aB"` and `"a_b"` collide on `"a_b"`; the later
value wins. -/
theorem claim_C10_witness :
    convert_to_snake_case (Json.obj [("aB", Json.num 1), ("a_b", Json.num 2)]) =
      Json.obj [(snakeCaseKey "aB", convert_to_snake_case (Json.num 2))] :=
  claim_C10_collision "aB" "a_b" (Json.num 1) (Json.num 2)
    (by decide) (by decide)
